import Mathlib

/-!
Shallow embedding of the core of the Nae-backend warehouse engine
(`store/src/db.rs`, `store/src/topologies/date_type_store_batch_id.rs`,
`store/src/checkpoints/check_date_store_batch.rs`, `src/animo/warehouse.rs`,
`service/src/lib.rs`, `src/storage/memories.rs`) and proofs about the
spec-level claims on it.

Conventions used throughout:
* Rust `Decimal` quantities and costs are embedded as `Int` (the claims only
  use their additive group structure).
* UUIDs and `ID` values are embedded as `Nat` (only equality and the fixed
  big-endian byte order matter; fixed-width big-endian encoding is strictly
  monotone, so ordering `Nat` values agrees with ordering their encodings).
* Timestamps for the checkpoint/report layer are embedded as `MTime`
  (a month index plus an offset inside the month, ordered lexicographically);
  this is order-isomorphic to the second-resolution `u64` timestamps used by
  the code, and makes `first_day_current_month` / `first_day_next_month`
  directly expressible.
* The RocksDB column families are embedded as association lists from
  structured keys to values; a range scan is a filter by the key order.
-/

namespace Nae

/-- Balance value stored per (store, goods, batch): `BalanceForGoods` from
`store/src/balance.rs` (declared by its users in src): a qty plus a cost,
additive, with zero default. -/
structure BalanceForGoods where
  qty : Int
  cost : Int
deriving DecidableEq, Repr

namespace BalanceForGoods

def zero : BalanceForGoods := ⟨0, 0⟩

def add (a b : BalanceForGoods) : BalanceForGoods := ⟨a.qty + b.qty, a.cost + b.cost⟩

end BalanceForGoods

/-- Sum of a list of balances, folded with `BalanceForGoods.add` from zero. -/
def bsum : List BalanceForGoods → BalanceForGoods
  | [] => BalanceForGoods.zero
  | b :: rest => b.add (bsum rest)

theorem bsum_append (l1 l2 : List BalanceForGoods) :
    bsum (l1 ++ l2) = (bsum l1).add (bsum l2) := by
  induction l1 with
  | nil =>
    simp [bsum, BalanceForGoods.add, BalanceForGoods.zero]
  | cons b rest ih =>
    simp [bsum, ih, BalanceForGoods.add]
    constructor <;> ring

/-- Issue mode from `store/src/elements.rs` (referenced by the tests in
`store/tests`): `Auto` must resolve a batch, `Manual` may drive the balance
negative. -/
inductive Mode where
  | Auto
  | Manual
deriving DecidableEq, Repr

/-- `InternalOperation` from the store crate data model (spec §3; the enum is
referenced by `store/tests/get_wh_ops.rs` and `src/storage/memories.rs`):
`Receive(qty, cost)`, `Issue(qty, cost, mode)`, `Transfer(qty, cost)`. -/
inductive InternalOperation where
  | Receive (qty cost : Int)
  | Issue (qty cost : Int) (mode : Mode)
  | Transfer (qty cost : Int)
deriving DecidableEq, Repr

namespace InternalOperation

/-- Signed balance delta of an operation (spec §3: `BalanceForGoods` is a
running sum of receipts minus issues; a transfer is keyed on the issuing
store, hence negative there). -/
def delta : InternalOperation → BalanceForGoods
  | .Receive q c => ⟨q, c⟩
  | .Issue q c _ => ⟨-q, -c⟩
  | .Transfer q c => ⟨-q, -c⟩

/-- Qty component of an operation. -/
def qtyOf : InternalOperation → Int
  | .Receive q _ => q
  | .Issue q _ _ => q
  | .Transfer q _ => q

/-- Receive-bucket test used by the aggregation engine (spec §4.5). -/
def isReceive : InternalOperation → Bool
  | .Receive _ _ => true
  | _ => false

end InternalOperation

/-! ## Claim C8: `Service::limit` (`service/src/lib.rs` lines 94-108) -/

/-- `Service::limit` from `service/src/lib.rs`: the `$limit` parameter is read
with `as_number()`; `usize::try_from(limit).unwrap_or(10).max(100)` is
returned when a number is present, `10` otherwise.  The parameter is embedded
as `Option Int`: `none` for an absent (or non-numeric) `$limit`, `some n` for
a numeric one, with negative `n` standing for the values on which
`usize::try_from` fails (yielding the `unwrap_or(10)` fallback). -/
def Service.limit (limitParam : Option Int) : Nat :=
  match limitParam with
  | some n => (if 0 ≤ n then n.toNat else 10).max 100
  | none => 10

/-- Claim C8: the claim states `limit` returns `min(user_limit, 100)` for a
numeric `$limit` and never exceeds 100; the code instead computes
`max(..., 100)`.  At `$limit = 5` the code returns `100`, not
`min 5 100 = 5`, and the result does exceed 100 at `$limit = 200`. -/
theorem limit_returns_max_not_min :
    Service.limit (some 5) = 100 ∧ Service.limit (some 5) ≠ Nat.min 5 100 ∧
    Service.limit (some 200) = 200 ∧ 100 < Service.limit (some 200) := by
  refine ⟨rfl, ?_, rfl, ?_⟩ <;> decide

/-! ## Checkpoint keys (`store/src/checkpoints/check_date_store_batch.rs`)

The persisted checkpoint key is the fixed-width big-endian concatenation
`ts(8) | store(16) | goods(16) | batch_ts(8) | batch_id(16)` (see `key` and
`key_to_data` in the source).  Fixed-width big-endian concatenation makes
byte-lexicographic order equal to lexicographic order on the field tuple, so
the key is embedded as that tuple; the timestamp field is an `MTime`. -/

/-- Timestamp embedded as a month index plus an offset within the month,
ordered lexicographically (order-isomorphic to the `u64` second timestamps
of the code; `first_day_current_month` zeroes the offset). -/
structure MTime where
  month : Nat
  off : Nat
deriving DecidableEq, Repr

namespace MTime

def lt (a b : MTime) : Prop :=
  a.month < b.month ∨ (a.month = b.month ∧ a.off < b.off)

def le (a b : MTime) : Prop :=
  a.month < b.month ∨ (a.month = b.month ∧ a.off ≤ b.off)

instance (a b : MTime) : Decidable (lt a b) := by unfold lt; infer_instance

instance (a b : MTime) : Decidable (le a b) := by unfold le; infer_instance

/-- `first_day_current_month` from `store/src/elements.rs` (declared by its
callers in src): truncate a date to the first instant of its month. -/
def fom (t : MTime) : MTime := ⟨t.month, 0⟩

/-- First month boundary at or after `t` (the checkpoint a dated operation
belongs to, compare `WarehouseStock::next_checkpoint`). -/
def nextB (t : MTime) : MTime := if t.off = 0 then t else ⟨t.month + 1, 0⟩

theorem fom_le (t : MTime) : le (fom t) t := by
  unfold le fom; right; exact ⟨rfl, Nat.zero_le _⟩

theorem le_nextB (t : MTime) : le t (nextB t) := by
  unfold le nextB
  by_cases h : t.off = 0
  · simp [h]
  · simp [h]

theorem nextB_le_iff (t b : MTime) (hb : b.off = 0) : le (nextB t) b ↔ le t b := by
  unfold le nextB
  by_cases h : t.off = 0
  · simp [h]
  · simp [h]
    constructor
    · intro hc
      rcases hc with hc | hc
      · omega
      · omega
    · intro hc
      rcases hc with hc | hc
      · omega
      · omega

theorem le_trans {a b c : MTime} (h1 : le a b) (h2 : le b c) : le a c := by
  unfold le at *
  rcases h1 with h1 | h1 <;> rcases h2 with h2 | h2 <;> omega

theorem le_total (a b : MTime) : le a b ∨ le b a := by
  unfold le; omega

theorem lt_or_le (a b : MTime) : lt a b ∨ le b a := by
  unfold lt le; omega

theorem le_of_lt {a b : MTime} (h : lt a b) : le a b := by
  unfold lt le at *; omega

theorem not_le_of_lt {a b : MTime} (h : lt a b) : ¬ le b a := by
  unfold lt le at *; omega

end MTime

/-- Checkpoint column-family key: `ts | store | goods | batch_ts | batch_id`
as in `CheckDateStoreBatch::key` / `key_to_data`. -/
structure CkptKey where
  ts : MTime
  store : Nat
  goods : Nat
  batchTs : Nat
  batchId : Nat
deriving DecidableEq, Repr

/-- Association-list lookup in an embedded column family. -/
def kvGet (st : List (CkptKey × BalanceForGoods)) (k : CkptKey) : Option BalanceForGoods :=
  match st with
  | [] => none
  | (k2, v) :: rest => if k2 = k then some v else kvGet rest k

/-- `CheckDateStoreBatch::get_balance`
(`store/src/checkpoints/check_date_store_batch.rs` lines 67-72): a point read
of the checkpoint CF that returns the default balance when the key is
absent. -/
def CheckDateStoreBatch.get_balance
    (st : List (CkptKey × BalanceForGoods)) (k : CkptKey) : BalanceForGoods :=
  match kvGet st k with
  | some v => v
  | none => BalanceForGoods.zero

/-- Claim C10: `get_balance` is total on absence: an absent checkpoint reads
as the zero balance `{qty := 0, cost := 0}`, so an absent checkpoint is
indistinguishable at this interface from a persisted zero balance. -/
theorem get_balance_total_on_absence
    (st : List (CkptKey × BalanceForGoods)) (k : CkptKey)
    (h : kvGet st k = none) :
    CheckDateStoreBatch.get_balance st k = ⟨0, 0⟩ ∧
    CheckDateStoreBatch.get_balance ((k, ⟨0, 0⟩) :: st) k =
      CheckDateStoreBatch.get_balance st k := by
  constructor
  · unfold CheckDateStoreBatch.get_balance
    rw [h]
    rfl
  · unfold CheckDateStoreBatch.get_balance
    rw [h]
    simp [kvGet, BalanceForGoods.zero]

/-- Witness for claim C10 at a concrete state and key. -/
theorem get_balance_total_on_absence_example :
    kvGet [(⟨⟨1, 0⟩, 7, 8, 0, 9⟩, ⟨2, 3⟩)] ⟨⟨1, 0⟩, 7, 8, 0, 10⟩ = none ∧
    CheckDateStoreBatch.get_balance [(⟨⟨1, 0⟩, 7, 8, 0, 9⟩, ⟨2, 3⟩)]
      ⟨⟨1, 0⟩, 7, 8, 0, 10⟩ = ⟨0, 0⟩ :=
  ⟨by decide, (get_balance_total_on_absence _ _ (by decide)).1⟩

/-! ## Claim C6: `WarehouseStock::next_checkpoint` (`src/animo/warehouse.rs` lines 80-91) -/

/-- Calendar instant as used by `next_checkpoint`: chrono components
`year`, `month` (1-12), `day` (from 1), `num_seconds_from_midnight` and
`nanosecond`. -/
structure CalTime where
  year : Int
  month : Nat
  day : Nat
  sfm : Nat
  ns : Nat
deriving DecidableEq, Repr

namespace CalTime

/-- Chronological order on calendar instants (lexicographic on the
components). -/
def le (a b : CalTime) : Prop :=
  a.year < b.year ∨ (a.year = b.year ∧
    (a.month < b.month ∨ (a.month = b.month ∧
      (a.day < b.day ∨ (a.day = b.day ∧
        (a.sfm < b.sfm ∨ (a.sfm = b.sfm ∧ a.ns ≤ b.ns)))))))

instance (a b : CalTime) : Decidable (le a b) := by unfold le; infer_instance

/-- A month boundary: the first day of a month at midnight, the condition
tested by `next_checkpoint`. -/
def isBoundary (t : CalTime) : Prop := t.day = 1 ∧ t.sfm = 0 ∧ t.ns = 0

instance (t : CalTime) : Decidable (isBoundary t) := by
  unfold isBoundary; infer_instance

/-- Valid chrono date components: month in 1-12, day from 1. -/
def valid (t : CalTime) : Prop := 1 ≤ t.month ∧ t.month ≤ 12 ∧ 1 ≤ t.day

instance (t : CalTime) : Decidable (valid t) := by unfold valid; infer_instance

end CalTime

/-- `WarehouseStock::next_checkpoint` from `src/animo/warehouse.rs`: a time
already at a month boundary (day 1, midnight, nanosecond 0) is returned
unchanged; otherwise the first day of the next month, rolling the year over
when `ymd_opt(year, month+1, 1)` is not a valid date. -/
def WarehouseStock.next_checkpoint (t : CalTime) : CalTime :=
  if t.day = 1 ∧ t.sfm = 0 ∧ t.ns = 0 then t
  else if t.month + 1 ≤ 12 then ⟨t.year, t.month + 1, 1, 0, 0⟩
  else ⟨t.year + 1, 1, 1, 0, 0⟩

/-- Claim C6: for an operation dated exactly at a month boundary the
checkpoint targeted is that same boundary, not the next month; for every
other date it is the first day of the next month.  This is stated as the
characterisation: `next_checkpoint t` is a month boundary, it is the least
month boundary at or after `t`, and it fixes boundaries. -/
theorem next_checkpoint_least_boundary (t : CalTime) (ht : t.valid) :
    (t.isBoundary → WarehouseStock.next_checkpoint t = t) ∧
    (WarehouseStock.next_checkpoint t).isBoundary ∧
    t.le (WarehouseStock.next_checkpoint t) ∧
    (∀ b : CalTime, b.valid → b.isBoundary → t.le b →
      (WarehouseStock.next_checkpoint t).le b) := by
  obtain ⟨hm1, hm2, hd⟩ := ht
  unfold WarehouseStock.next_checkpoint
  by_cases hb : t.day = 1 ∧ t.sfm = 0 ∧ t.ns = 0
  · rw [if_pos hb]
    refine ⟨fun _ => rfl, hb, ?_, fun b _ _ hle => hle⟩
    unfold CalTime.le
    omega
  · rw [if_neg hb]
    have hnotb : ¬ t.isBoundary := hb
    by_cases hm : t.month + 1 ≤ 12
    · rw [if_pos hm]
      refine ⟨fun h => absurd h hnotb, ⟨rfl, rfl, rfl⟩, ?_, ?_⟩
      · exact Or.inr ⟨rfl, Or.inl (Nat.lt_succ_self _)⟩
      · intro b hbv hbb hble
        obtain ⟨hb1, hb2, hb3⟩ := hbb
        obtain ⟨hbm1, hbm2, hbd⟩ := hbv
        simp only [CalTime.le] at hble ⊢
        omega
    · rw [if_neg hm]
      refine ⟨fun h => absurd h hnotb, ⟨rfl, rfl, rfl⟩, ?_, ?_⟩
      · exact Or.inl (show t.year < t.year + 1 by omega)
      · intro b hbv hbb hble
        obtain ⟨hb1, hb2, hb3⟩ := hbb
        obtain ⟨hbm1, hbm2, hbd⟩ := hbv
        simp only [CalTime.le] at hble ⊢
        omega

/-- Witness for claim C6: a boundary instant (2022-06-01 00:00:00.0) maps to
itself, and a non-boundary December instant rolls over to January 1 of the
next year. -/
theorem next_checkpoint_least_boundary_example :
    CalTime.valid ⟨2022, 6, 1, 0, 0⟩ ∧
    WarehouseStock.next_checkpoint ⟨2022, 6, 1, 0, 0⟩ = ⟨2022, 6, 1, 0, 0⟩ ∧
    WarehouseStock.next_checkpoint ⟨2022, 12, 31, 5, 0⟩ = ⟨2023, 1, 1, 0, 0⟩ :=
  ⟨by decide,
   (next_checkpoint_least_boundary ⟨2022, 6, 1, 0, 0⟩ (by decide)).1 (by decide),
   by decide⟩

/-! ## Claim C4: `WarehouseTopology::position_of_operation`
(`src/animo/warehouse.rs` lines 430-452) -/

/-- Big-endian byte list of a `u64` timestamp (`ts_to_bytes` /
`time_to_bytes` in `src/animo/warehouse.rs`). -/
def beBytes64 (n : Nat) : List Nat :=
  [n / 2 ^ 56 % 256, n / 2 ^ 48 % 256, n / 2 ^ 40 % 256, n / 2 ^ 32 % 256,
   n / 2 ^ 24 % 256, n / 2 ^ 16 % 256, n / 2 ^ 8 % 256, n % 256]

/-- Byte-lexicographic strict order on keys, the iteration order of the KV
backend. -/
def lexLtB : List Nat → List Nat → Bool
  | _, [] => false
  | [], _ :: _ => true
  | a :: as2, b :: bs => a < b || (a = b && lexLtB as2 bs)

theorem lexLtB_append_same {pre : List Nat} {a b : Nat} (h : a < b) :
    lexLtB (pre ++ [a]) (pre ++ [b]) = true := by
  induction pre with
  | nil => simp [lexLtB, h]
  | cons x rest ih => simp [lexLtB, ih]

/-- `BalanceOperation` from `src/animo/warehouse.rs`: a warehouse movement is
either an inflow `In(qty, cost)` (a receive or transfer-in) or an outflow
`Out(qty, cost)` (an issue or transfer-out). -/
inductive BalanceOperation where
  | In (qty cost : Int)
  | Out (qty cost : Int)
deriving DecidableEq, Repr

/-- Order byte appended by `position_of_operation`: the source maps
`In(..)` to `u8::MAX` and `Out(..)` to `u8::MIN`. -/
def opOrderByte : BalanceOperation → Nat
  | .In _ _ => 255
  | .Out _ _ => 0

/-- `WarehouseTopology::position_of_operation`: the ordered-topology key
`WH_TOPOLOGY | store | goods | ts | op_order` (the topology prefix and the
two IDs are opaque byte strings). -/
def WarehouseTopology.position_of_operation
    (whTop store goods : List Nat) (ts : Nat) (op : BalanceOperation) :
    List Nat :=
  whTop ++ store ++ goods ++ beBytes64 ts ++ [opOrderByte op]

/-- For two operations at the same (store, goods, timestamp), the out
operation key always precedes the in operation key in byte order: the shared
prefix is identical and the final order byte is 0 versus 255. -/
theorem position_out_before_in
    (whTop store goods : List Nat) (ts : Nat)
    (qi ci qo co : Int) :
    lexLtB
      (WarehouseTopology.position_of_operation whTop store goods ts (.Out qo co))
      (WarehouseTopology.position_of_operation whTop store goods ts (.In qi ci)) =
      true := by
  unfold WarehouseTopology.position_of_operation
  simp only [opOrderByte]
  exact lexLtB_append_same (by decide)

/-- Claim C4 (refuted): the claim says the op_order byte is 0 for a receive
(In) and 0xFF for an issue (Out) so that iteration yields the receive first
at tied timestamps.  In the code it is the opposite: at one concrete tied
timestamp the receive key carries order byte 255, the issue key carries 0,
and the issue key iterates strictly before the receive key. -/
theorem position_of_operation_orders_issue_first :
    opOrderByte (.In 1 1) = 255 ∧ opOrderByte (.Out 1 1) = 0 ∧
    lexLtB
      (WarehouseTopology.position_of_operation [7] [3] [4] 1000 (.Out 1 1))
      (WarehouseTopology.position_of_operation [7] [3] [4] 1000 (.In 1 1)) =
      true ∧
    (255 : Nat) ≠ 0 := by
  refine ⟨rfl, rfl, ?_, by decide⟩
  decide

/-! ## Claim C9: `save_data` (`src/storage/memories.rs` lines 24-78) -/

/-- State of one document directory in the Document Log: the timestamped
JSON files present (name, body — both opaque, embedded as `Nat`) and the
target of the `latest.json` symlink (`none` when the symlink does not
exist). -/
structure DocDir where
  files : List (Nat × Nat)
  latest : Option Nat
deriving DecidableEq, Repr

/-- File lookup by name inside a document directory. -/
def lookupFile : List (Nat × Nat) → Nat → Option Nat
  | [], _ => none
  | (n, b) :: rest, m => if n = m then some b else lookupFile rest m

/-- Document body reachable through `latest.json`: resolve the symlink, then
read the file it points at. -/
def resolveLatest (fs : DocDir) : Option Nat :=
  match fs.latest with
  | none => none
  | some n => lookupFile fs.files n

/-- `save_data` from `src/storage/memories.rs`, restricted to its three
state-mutating filesystem steps in source order: `save(&path_current, ...)`
writes the fresh timestamped file, `symlink::remove_symlink_file(&path_latest)`
removes `latest.json`, `symlink::symlink_file(&file_name, &path_latest)`
re-creates it pointing at the fresh file.  The result lists the directory
state after each step (a crash between steps leaves one of these states). -/
def save_data_states (fs : DocDir) (freshName body : Nat) : List DocDir :=
  let fs1 : DocDir := ⟨(freshName, body) :: fs.files, fs.latest⟩
  let fs2 : DocDir := ⟨fs1.files, none⟩
  let fs3 : DocDir := ⟨fs2.files, some freshName⟩
  [fs1, fs2, fs3]

/-- Claim C9 (refuted): the claim says that in every intermediate state of
the write sequence the previously latest body stays reachable via
`latest.json`.  Starting from a directory whose latest body is `10`, the
state after the symlink-removal step resolves `latest.json` to nothing. -/
theorem save_data_middle_state_unreachable :
    (save_data_states ⟨[(0, 10)], some 0⟩ 1 11).map resolveLatest =
      [some 10, none, some 11] ∧ (none : Option Nat) ≠ some 10 :=
  ⟨by decide, by decide⟩

/-- Claim C9 (amended): the fresh file is written before `latest.json` is
touched, so after the file write the previous body is still reachable via
`latest.json`, and the previous timestamped file itself survives every step;
but between symlink removal and re-creation `latest.json` resolves to
nothing, and after the final step it resolves to the new body. -/
theorem save_data_keeps_previous_file
    (fs : DocDir) (freshName body prevName prevBody : Nat)
    (hl : fs.latest = some prevName)
    (hp : lookupFile fs.files prevName = some prevBody)
    (hne : freshName ≠ prevName) :
    (save_data_states fs freshName body).map resolveLatest =
      [some prevBody, none, some body] ∧
    ∀ st ∈ save_data_states fs freshName body,
      lookupFile st.files prevName = some prevBody := by
  unfold save_data_states
  constructor
  · simp [resolveLatest, hl, lookupFile, if_neg hne, hp]
  · intro st hst
    simp only [List.mem_cons, List.mem_singleton, List.not_mem_nil, or_false] at hst
    rcases hst with h | h | h <;>
      simp [h, lookupFile, if_neg hne, hp]

/-- Witness for claim C9 (amended) at a concrete directory. -/
theorem save_data_keeps_previous_file_example :
    (save_data_states ⟨[(0, 10)], some 0⟩ 1 11).map resolveLatest =
      [some 10, none, some 11] ∧
    ∀ st ∈ save_data_states ⟨[(0, 10)], some 0⟩ 1 11,
      lookupFile st.files 0 = some 10 :=
  save_data_keeps_previous_file ⟨[(0, 10)], some 0⟩ 1 11 0 10 rfl (by decide)
    (by decide)

/-! ## Claim C5: `get_checkpoints_for_one_goods`
(`store/src/checkpoints/check_date_store_batch.rs` lines 114-166) -/

/-- Largest `u64` value, the `batch_ts` component of the scan upper bound. -/
def U64M : Nat := 2 ^ 64 - 1

/-- Largest 16-byte UUID value (`UUID_MAX`), the `batch_id` component of the
scan upper bound. -/
def U128M : Nat := 2 ^ 128 - 1

/-- Strict byte order on checkpoint keys: since the key is a fixed-width
big-endian concatenation, byte-lexicographic order equals lexicographic
order on the field tuple. -/
def ckLt (a b : CkptKey) : Prop :=
  MTime.lt a.ts b.ts ∨ (a.ts = b.ts ∧
    (a.store < b.store ∨ (a.store = b.store ∧
      (a.goods < b.goods ∨ (a.goods = b.goods ∧
        (a.batchTs < b.batchTs ∨ (a.batchTs = b.batchTs ∧
          a.batchId < b.batchId)))))))

/-- Reflexive byte order on checkpoint keys. -/
def ckLe (a b : CkptKey) : Prop :=
  MTime.lt a.ts b.ts ∨ (a.ts = b.ts ∧
    (a.store < b.store ∨ (a.store = b.store ∧
      (a.goods < b.goods ∨ (a.goods = b.goods ∧
        (a.batchTs < b.batchTs ∨ (a.batchTs = b.batchTs ∧
          a.batchId ≤ b.batchId)))))))

instance (a b : CkptKey) : Decidable (ckLt a b) := by unfold ckLt; infer_instance

instance (a b : CkptKey) : Decidable (ckLe a b) := by unfold ckLe; infer_instance

/-- Checkpoint column-family state: the persisted checkpoint records plus the
latest-checkpoint-date record (stored by `set_latest_checkpoint_date`;
`get_latest_checkpoint_date` defaults to the 1970 epoch, `MTime ⟨0, 0⟩`,
when absent). -/
structure CkptState where
  entries : List (CkptKey × BalanceForGoods)
  latest : MTime
deriving DecidableEq, Repr

/-- `Balance` record from the store crate as returned by the checkpoint
scans: a dated per-(store, goods, batch) balance. -/
structure Balance where
  date : MTime
  store : Nat
  goods : Nat
  batchTs : Nat
  batchId : Nat
  number : BalanceForGoods
deriving DecidableEq, Repr

/-- `CheckDateStoreBatch::get_checkpoints_for_one_goods`: compute
`actual_date` as `latest` when `first_day_current_month(date) > latest` and
as `first_day_current_month(date)` otherwise, then range-scan the CF over
`[ts(actual) | store | goods | u64::MIN | UUID_NIL,
  ts(actual) | store | goods | u64::MAX | UUID_MAX)` and decode every entry
in the range. -/
def CheckDateStoreBatch.get_checkpoints_for_one_goods
    (st : CkptState) (store goods : Nat) (date : MTime) : List Balance :=
  let current := MTime.fom date
  let actual := if MTime.lt st.latest current then st.latest else current
  let fromK : CkptKey := ⟨actual, store, goods, 0, 0⟩
  let tillK : CkptKey := ⟨actual, store, goods, U64M, U128M⟩
  (st.entries.filter (fun e => decide (ckLe fromK e.1) && decide (ckLt e.1 tillK))).map
    (fun e => ⟨e.1.ts, e.1.store, e.1.goods, e.1.batchTs, e.1.batchId, e.2⟩)

/-- Claim C5 (refuted): the claim says the scan returns the most recent
persisted checkpoint whose date is ≤ the first day of the query month.  In
this state the pair (store 5, goods 6) has a persisted checkpoint dated
month 1 — the most recent one ≤ first-of-month of the query date (month 3) —
while `latest` is month 3 (advanced by other activity): the scan looks only
at month 3 exactly and returns nothing. -/
theorem get_checkpoints_for_one_goods_misses_older :
    CheckDateStoreBatch.get_checkpoints_for_one_goods
      ⟨[(⟨⟨1, 0⟩, 5, 6, 0, 7⟩, ⟨5, 5⟩)], ⟨3, 0⟩⟩ 5 6 ⟨3, 5⟩ = [] ∧
    (⟨⟨1, 0⟩, 5, 6, 0, 7⟩, (⟨5, 5⟩ : BalanceForGoods)) ∈
      ([(⟨⟨1, 0⟩, 5, 6, 0, 7⟩, ⟨5, 5⟩)] :
        List (CkptKey × BalanceForGoods)) ∧
    MTime.le ⟨1, 0⟩ (MTime.fom ⟨3, 5⟩) :=
  ⟨by decide, by decide, by decide⟩

/-- Claim C5 (amended): the scan returns exactly the checkpoints persisted
for (store, goods) at the single date
`min(first_day_current_month(date), latest_checkpoint_date)` — every entry
at that exact date, store and goods (except the maximal batch key, excluded
by the half-open range) and no entry at any other date. -/
theorem get_checkpoints_for_one_goods_exact_date
    (st : CkptState) (s g : Nat) (date : MTime)
    (hb : ∀ e ∈ st.entries, e.1.batchTs ≤ U64M ∧ e.1.batchId ≤ U128M) :
    CheckDateStoreBatch.get_checkpoints_for_one_goods st s g date =
      (st.entries.filter (fun e =>
        decide (e.1.ts = (if MTime.lt st.latest (MTime.fom date) then st.latest
                          else MTime.fom date) ∧
          e.1.store = s ∧ e.1.goods = g ∧
          ¬(e.1.batchTs = U64M ∧ e.1.batchId = U128M)))).map
        (fun e => ⟨e.1.ts, e.1.store, e.1.goods, e.1.batchTs, e.1.batchId, e.2⟩) := by
  unfold CheckDateStoreBatch.get_checkpoints_for_one_goods
  have hfc : ∀ e ∈ st.entries,
      (decide (ckLe ⟨(if MTime.lt st.latest (MTime.fom date) then st.latest
                      else MTime.fom date), s, g, 0, 0⟩ e.1) &&
       decide (ckLt e.1 ⟨(if MTime.lt st.latest (MTime.fom date) then st.latest
                          else MTime.fom date), s, g, U64M, U128M⟩)) =
      decide (e.1.ts = (if MTime.lt st.latest (MTime.fom date) then st.latest
                        else MTime.fom date) ∧
        e.1.store = s ∧ e.1.goods = g ∧
        ¬(e.1.batchTs = U64M ∧ e.1.batchId = U128M)) := by
    intro e he
    obtain ⟨hb1, hb2⟩ := hb e he
    rw [← Bool.decide_and, decide_eq_decide]
    generalize (if MTime.lt st.latest (MTime.fom date) then st.latest
                else MTime.fom date) = A
    obtain ⟨Am, Ao⟩ := A
    obtain ⟨⟨⟨tm, toff⟩, ks, kg, kbt, kbi⟩, v⟩ := e
    simp only [U64M, U128M] at hb1 hb2
    unfold ckLe ckLt U64M U128M
    simp only [MTime.lt, MTime.mk.injEq, CkptKey.mk.injEq] at *
    omega
  dsimp only
  rw [List.filter_congr hfc]

/-! ## Claim C3: the aggregation engine
(`store/src/topologies/date_type_store_batch_id.rs` lines 370-384 and spec
§4.5; `new_get_aggregations` itself lives in `store/src/aggregations.rs`,
which is not under src, so the engine body is modelled from the spec) -/

theorem BalanceForGoods.zero_add (b : BalanceForGoods) :
    BalanceForGoods.zero.add b = b := by
  unfold BalanceForGoods.zero BalanceForGoods.add
  simp

theorem BalanceForGoods.add_assoc (a b c : BalanceForGoods) :
    (a.add b).add c = a.add (b.add c) := by
  unfold BalanceForGoods.add
  simp
  constructor <;> ring

theorem BalanceForGoods.add_comm (a b : BalanceForGoods) :
    a.add b = b.add a := by
  unfold BalanceForGoods.add
  simp
  constructor <;> ring

/-- Operation record as consumed by the aggregation engine for a single
(store, goods, batch) key: a date plus the internal operation. -/
structure AgrOp where
  date : MTime
  op : InternalOperation
deriving DecidableEq, Repr

/-- Per-key aggregation row, `AgregationStoreGoods` from the store crate
(field shape as used by `store/tests/neg_balance_date_type_store_goods_id.rs`). -/
structure AgregationStoreGoods where
  open_balance : BalanceForGoods
  receive : BalanceForGoods
  issue : BalanceForGoods
  close_balance : BalanceForGoods
deriving DecidableEq, Repr

/-- Modelled from the spec: `new_get_aggregations` /
`get_aggregations_for_one_goods` (`store/src/aggregations.rs`, not under
src), restricted to one (store, goods, batch) key per spec §4.5: operations
dated before `from` contribute to the opening balance only, operations dated
at or after `from` contribute to the receive or issue bucket, and
`close = open + receive + issue`. -/
def aggregate (openBal : BalanceForGoods) (ops : List AgrOp) (fromD : MTime) :
    AgregationStoreGoods :=
  let opn := openBal.add (bsum
    ((ops.filter (fun o => decide (MTime.lt o.date fromD))).map
      (fun o => o.op.delta)))
  let recv := bsum
    ((ops.filter (fun o =>
        decide (MTime.le fromD o.date ∧ o.op.isReceive = true))).map
      (fun o => o.op.delta))
  let iss := bsum
    ((ops.filter (fun o =>
        decide (MTime.le fromD o.date ∧ o.op.isReceive = false))).map
      (fun o => o.op.delta))
  ⟨opn, recv, iss, opn.add (recv.add iss)⟩

/-- `get_report_for_storage` per key: the operations are fetched from the
ordered topology over `[first_day_current_month(from), till]`
(`get_ops_for_storage` bounds in the source) and handed to the engine with
`from`. -/
def report_for_goods (openBal : BalanceForGoods) (ops : List AgrOp)
    (fromD till : MTime) : AgregationStoreGoods :=
  aggregate openBal
    (ops.filter (fun o =>
      decide (MTime.le (MTime.fom fromD) o.date ∧ MTime.le o.date till)))
    fromD

/-- Modelled from the spec: merging two adjacent sub-reports keeps the first
report's opening balance and concatenates (adds) the two sub-reports'
receive and issue deltas, recomputing the close. -/
def mergeReports (r1 r2 : AgregationStoreGoods) : AgregationStoreGoods :=
  ⟨r1.open_balance, r1.receive.add r2.receive, r1.issue.add r2.issue,
   r1.open_balance.add
     ((r1.receive.add r2.receive).add (r1.issue.add r2.issue))⟩

theorem bsum_filter_split {α : Type} (f : α → BalanceForGoods)
    (p1 p2 p : α → Bool) (ops : List α)
    (h : ∀ o ∈ ops, p o = (p1 o || p2 o) ∧ ¬(p1 o = true ∧ p2 o = true)) :
    (bsum ((ops.filter p1).map f)).add (bsum ((ops.filter p2).map f)) =
      bsum ((ops.filter p).map f) := by
  induction ops with
  | nil =>
    simp [bsum, BalanceForGoods.add, BalanceForGoods.zero]
  | cons o rest ih =>
    obtain ⟨ho1, ho2⟩ := h o (List.mem_cons_self o rest)
    have hrest := ih (fun o2 ho => h o2 (List.mem_cons_of_mem _ ho))
    cases hp1 : p1 o <;> cases hp2 : p2 o
    · have hpo : p o = false := by rw [ho1, hp1, hp2]; rfl
      rw [List.filter_cons_of_neg (by simp [hp1]),
        List.filter_cons_of_neg (by simp [hp2]),
        List.filter_cons_of_neg (by simp [hpo])]
      exact hrest
    · have hpo : p o = true := by rw [ho1, hp1, hp2]; rfl
      rw [List.filter_cons_of_neg (by simp [hp1]),
        List.filter_cons_of_pos hp2, List.filter_cons_of_pos hpo]
      simp only [List.map, bsum]
      rw [BalanceForGoods.add_comm (bsum (List.map f (List.filter p1 rest))),
        BalanceForGoods.add_assoc,
        BalanceForGoods.add_comm (bsum (List.map f (List.filter p2 rest))),
        hrest]
    · have hpo : p o = true := by rw [ho1, hp1, hp2]; rfl
      rw [List.filter_cons_of_pos hp1,
        List.filter_cons_of_neg (by simp [hp2]), List.filter_cons_of_pos hpo]
      simp only [List.map, bsum]
      rw [BalanceForGoods.add_assoc, hrest]
    · exact absurd ⟨hp1, hp2⟩ ho2

theorem timeSplit (E : Prop) [Decidable E] (d f t u : MTime)
    (h1 : MTime.le f t) (h2 : MTime.le t u) (hnt : d ≠ t) :
    ((MTime.le f d ∧ E) ∧ (MTime.le (MTime.fom f) d ∧ MTime.le d u)) ↔
    (((MTime.le f d ∧ E) ∧ (MTime.le (MTime.fom f) d ∧ MTime.le d t)) ∨
      ((MTime.le t d ∧ E) ∧ (MTime.le (MTime.fom t) d ∧ MTime.le d u))) := by
  by_cases hE : E
  · simp only [hE, and_true]
    obtain ⟨dm, doff⟩ := d
    obtain ⟨fm, fo⟩ := f
    obtain ⟨tm, to2⟩ := t
    obtain ⟨um, uo⟩ := u
    simp only [Ne, MTime.mk.injEq] at hnt
    simp only [MTime.le, MTime.fom] at h1 h2 ⊢
    omega
  · simp [hE]

theorem timeSplit_not_both (E : Prop) (d f t u : MTime) (hnt : d ≠ t) :
    ¬(((MTime.le f d ∧ E) ∧ (MTime.le (MTime.fom f) d ∧ MTime.le d t)) ∧
      ((MTime.le t d ∧ E) ∧ (MTime.le (MTime.fom t) d ∧ MTime.le d u))) := by
  rintro ⟨⟨_, _, hdt⟩, ⟨htd, _⟩, _⟩
  apply hnt
  obtain ⟨dm, doff⟩ := d
  obtain ⟨tm, to2⟩ := t
  simp only [MTime.le] at hdt htd
  simp only [MTime.mk.injEq]
  omega

/-- Claim C3 (refuted): splitting at an instant `t` carrying an operation
double-counts that operation.  One receive of (1, 1) dated exactly at the
split point t = ⟨0,1⟩ of [⟨0,0⟩, ⟨0,2⟩] appears in both sub-reports, so the
merged report shows receive (2, 2) while the single-shot report shows
(1, 1). -/
theorem report_split_double_counts :
    MTime.le ⟨0, 0⟩ ⟨0, 1⟩ ∧ MTime.le ⟨0, 1⟩ ⟨0, 2⟩ ∧
    (mergeReports
        (report_for_goods ⟨0, 0⟩ [⟨⟨0, 1⟩, .Receive 1 1⟩] ⟨0, 0⟩ ⟨0, 1⟩)
        (report_for_goods ⟨0, 0⟩ [⟨⟨0, 1⟩, .Receive 1 1⟩] ⟨0, 1⟩ ⟨0, 2⟩)).receive =
      ⟨2, 2⟩ ∧
    (report_for_goods ⟨0, 0⟩ [⟨⟨0, 1⟩, .Receive 1 1⟩] ⟨0, 0⟩ ⟨0, 2⟩).receive =
      ⟨1, 1⟩ ∧
    mergeReports
        (report_for_goods ⟨0, 0⟩ [⟨⟨0, 1⟩, .Receive 1 1⟩] ⟨0, 0⟩ ⟨0, 1⟩)
        (report_for_goods ⟨0, 0⟩ [⟨⟨0, 1⟩, .Receive 1 1⟩] ⟨0, 1⟩ ⟨0, 2⟩) ≠
      report_for_goods ⟨0, 0⟩ [⟨⟨0, 1⟩, .Receive 1 1⟩] ⟨0, 0⟩ ⟨0, 2⟩ := by
  refine ⟨by decide, by decide, ?_, ?_, ?_⟩ <;> decide

theorem report_idempotent_and_split
    (openBal : BalanceForGoods) (ops : List AgrOp) (fromD t till : MTime)
    (h1 : MTime.le fromD t) (h2 : MTime.le t till)
    (hno : ∀ o ∈ ops, o.date ≠ t) :
    report_for_goods openBal ops fromD till =
      report_for_goods openBal ops fromD till ∧
    mergeReports (report_for_goods openBal ops fromD t)
        (report_for_goods openBal ops t till) =
      report_for_goods openBal ops fromD till := by
  refine ⟨rfl, ?_⟩
  unfold report_for_goods aggregate mergeReports
  simp only [List.filter_filter]
  have hopen : List.filter (fun o =>
      decide (MTime.lt o.date fromD) &&
      decide (MTime.le (MTime.fom fromD) o.date ∧ MTime.le o.date t)) ops =
      List.filter (fun o =>
        decide (MTime.lt o.date fromD) &&
        decide (MTime.le (MTime.fom fromD) o.date ∧ MTime.le o.date till)) ops := by
    apply List.filter_congr
    intro o ho
    rw [← Bool.decide_and, ← Bool.decide_and, decide_eq_decide]
    obtain ⟨⟨dm, doff⟩, iop⟩ := o
    obtain ⟨fm, fo⟩ := fromD
    obtain ⟨tm, to2⟩ := t
    obtain ⟨um, uo⟩ := till
    simp only [MTime.le, MTime.lt, MTime.fom] at h1 h2 ⊢
    omega
  have hrecv : (bsum (List.map (fun o => o.op.delta) (List.filter (fun o =>
      decide (MTime.le fromD o.date ∧ o.op.isReceive = true) &&
      decide (MTime.le (MTime.fom fromD) o.date ∧ MTime.le o.date t)) ops))).add
      (bsum (List.map (fun o => o.op.delta) (List.filter (fun o =>
        decide (MTime.le t o.date ∧ o.op.isReceive = true) &&
        decide (MTime.le (MTime.fom t) o.date ∧ MTime.le o.date till)) ops))) =
      bsum (List.map (fun o => o.op.delta) (List.filter (fun o =>
        decide (MTime.le fromD o.date ∧ o.op.isReceive = true) &&
        decide (MTime.le (MTime.fom fromD) o.date ∧ MTime.le o.date till)) ops)) := by
    apply bsum_filter_split
    intro o ho
    refine ⟨?_, ?_⟩
    · rw [← Bool.decide_and, ← Bool.decide_and, ← Bool.decide_and,
        ← Bool.decide_or, decide_eq_decide]
      exact timeSplit (o.op.isReceive = true) o.date fromD t till h1 h2
        (hno o ho)
    · simp only [Bool.and_eq_true, decide_eq_true_eq]
      exact timeSplit_not_both (o.op.isReceive = true) o.date fromD t till
        (hno o ho)
  have hiss : (bsum (List.map (fun o => o.op.delta) (List.filter (fun o =>
      decide (MTime.le fromD o.date ∧ o.op.isReceive = false) &&
      decide (MTime.le (MTime.fom fromD) o.date ∧ MTime.le o.date t)) ops))).add
      (bsum (List.map (fun o => o.op.delta) (List.filter (fun o =>
        decide (MTime.le t o.date ∧ o.op.isReceive = false) &&
        decide (MTime.le (MTime.fom t) o.date ∧ MTime.le o.date till)) ops))) =
      bsum (List.map (fun o => o.op.delta) (List.filter (fun o =>
        decide (MTime.le fromD o.date ∧ o.op.isReceive = false) &&
        decide (MTime.le (MTime.fom fromD) o.date ∧ MTime.le o.date till)) ops)) := by
    apply bsum_filter_split
    intro o ho
    refine ⟨?_, ?_⟩
    · rw [← Bool.decide_and, ← Bool.decide_and, ← Bool.decide_and,
        ← Bool.decide_or, decide_eq_decide]
      exact timeSplit (o.op.isReceive = false) o.date fromD t till h1 h2
        (hno o ho)
    · simp only [Bool.and_eq_true, decide_eq_true_eq]
      exact timeSplit_not_both (o.op.isReceive = false) o.date fromD t till
        (hno o ho)
  rw [hopen, hrecv, hiss]


/-- Witness for claim C3 (amended) at a split point carrying no operation. -/
theorem report_idempotent_and_split_example :
    MTime.le ⟨0, 0⟩ ⟨0, 2⟩ ∧ MTime.le ⟨0, 2⟩ ⟨0, 3⟩ ∧
    (∀ o ∈ ([⟨⟨0, 1⟩, .Receive 1 1⟩] : List AgrOp), o.date ≠ ⟨0, 2⟩) ∧
    mergeReports
        (report_for_goods ⟨0, 0⟩ [⟨⟨0, 1⟩, .Receive 1 1⟩] ⟨0, 0⟩ ⟨0, 2⟩)
        (report_for_goods ⟨0, 0⟩ [⟨⟨0, 1⟩, .Receive 1 1⟩] ⟨0, 2⟩ ⟨0, 3⟩) =
      report_for_goods ⟨0, 0⟩ [⟨⟨0, 1⟩, .Receive 1 1⟩] ⟨0, 0⟩ ⟨0, 3⟩ :=
  ⟨by decide, by decide, by decide,
   (report_idempotent_and_split ⟨0, 0⟩ [⟨⟨0, 1⟩, .Receive 1 1⟩] ⟨0, 0⟩ ⟨0, 2⟩
      ⟨0, 3⟩ (by decide) (by decide) (by decide)).2⟩

/-! ## Claims C1, C2, C7: `Db::record_ops` (`store/src/db.rs` lines 62-90),
the checkpoint maintenance behind it, and the balance query

`record_ops` loops over the mutations; for each it calls
`data_update` on every ordered topology and then `checkpoint_update` on every
checkpoint topology, propagating any error with `?`.  No write batch exists
anywhere on this path: `DateTypeStoreBatchId::put` and
`CheckDateStoreBatch::set_balance` call `put_cf` directly, so writes reach
the KV store as they happen.  `data_update` (`store/src/ordered_topology.rs`)
and `checkpoint_update` (`store/src/checkpoints/mod.rs`) are not under src;
their bodies are modelled from the spec (§4.4 steps 1-5, §4.3, §7) below. -/

/-- Additive inverse of a balance (used for the delete direction of a
mutation, spec §4.4 edge cases). -/
def BalanceForGoods.neg (a : BalanceForGoods) : BalanceForGoods := ⟨-a.qty, -a.cost⟩

/-- The (store, goods, batch) coordinate an operation is booked under. -/
structure SGB where
  store : Nat
  goods : Nat
  batchId : Nat
  batchTs : MTime
deriving DecidableEq, Repr

/-- Recorded warehouse operation as stored in the ordered topology (`Op`
from the store crate, restricted to the fields the balance claims use). -/
structure WOp where
  id : Nat
  key : SGB
  ts : MTime
  op : InternalOperation
deriving DecidableEq, Repr

/-- One persisted checkpoint: a month-boundary balance for one
(store, goods, batch). -/
structure CEntry where
  key : SGB
  time : MTime
  bal : BalanceForGoods
deriving DecidableEq, Repr

/-- Persistent engine state: the ordered topology (the list of recorded
operations), the checkpoint topology, and the latest-checkpoint date
(defaulting to the 1970 epoch `⟨0, 0⟩`). -/
structure WhState where
  ops : List WOp
  ckpts : List CEntry
  latest : MTime
deriving DecidableEq, Repr

/-- Sum of the signed deltas of the operations of tuple `k` dated `≤ m`:
the naive balance reference of spec §8. -/
def tupleSum (ops : List WOp) (k : SGB) (m : MTime) : BalanceForGoods :=
  bsum ((ops.filter (fun o => decide (o.key = k ∧ MTime.le o.ts m))).map
    (fun o => o.op.delta))

/-- Modelled from the spec: `checkpoint_update` (§4.3;
`store/src/checkpoints/mod.rs` is not under src).  For the already-written
operation `o`, compute `m = ` the month boundary the operation belongs to
(an operation dated exactly at a boundary belongs to that boundary, per
`WarehouseStock::next_checkpoint`); add the operation delta to every
persisted boundary `≥ m` of the same tuple; if the tuple has no boundary
`≥ m`, create one at `m` holding the balance obtained by replaying the
ordered topology up to and including `m` (the walk from the most recent
earlier checkpoint plus the replayed interval, closed at `m` so that
boundary-dated operations land in their own checkpoint); advance
`latest_checkpoint_date` to `max(current, m)`. -/
def checkpoint_update (st : WhState) (o : WOp) : WhState :=
  let m := MTime.nextB o.ts
  let upd := st.ckpts.map (fun e =>
    if e.key = o.key ∧ MTime.le m e.time
    then ⟨e.key, e.time, e.bal.add o.op.delta⟩ else e)
  let hasGe := st.ckpts.any (fun e => decide (e.key = o.key ∧ MTime.le m e.time))
  let ckpts2 := if hasGe then upd
    else ⟨o.key, m, tupleSum st.ops o.key m⟩ :: upd
  let latest2 := if MTime.le st.latest m then m else st.latest
  ⟨st.ops, ckpts2, latest2⟩

/-- Recording one inserted operation, in `record_ops` order: the ordered
topology is written first (`data_update`), then the checkpoint topology. -/
def record_op (st : WhState) (o : WOp) : WhState :=
  checkpoint_update ⟨st.ops ++ [o], st.ckpts, st.latest⟩ o

/-- Recording a whole sequence of inserted operations from the empty state. -/
def record_all (ops : List WOp) : WhState :=
  ops.foldl record_op ⟨[], [], ⟨0, 0⟩⟩

/-- Scan date used by every checkpoint read
(`get_checkpoint_for_goods_and_batch`, `get_checkpoints_for_one_goods`, ...):
`latest` when `first_day_current_month(date) > latest`, else
`first_day_current_month(date)` — that is, the smaller of the two. -/
def actual_date (st : WhState) (d : MTime) : MTime :=
  if MTime.lt st.latest (MTime.fom d) then st.latest else MTime.fom d

/-- The balance query of spec §4.7 (`balance_on`): read the tuple checkpoint
persisted at the scan date (absence reads as zero, per
`CheckDateStoreBatch::get_balance`), then replay the ordered topology from
the scan date (exclusive) to the query date (inclusive).  The replay
interval is open at the scan date because boundary-dated operations are
already inside the checkpoint.  The replay itself
(`OrderedTopology::get_balances`) is not under src and is modelled from the
spec. -/
def balance_on (st : WhState) (k : SGB) (d : MTime) : BalanceForGoods :=
  let a := actual_date st d
  let opn := match st.ckpts.find? (fun e => decide (e.key = k ∧ e.time = a)) with
    | some e => e.bal
    | none => BalanceForGoods.zero
  opn.add (bsum ((st.ops.filter (fun o =>
    decide (o.key = k ∧ MTime.lt a o.ts ∧ MTime.le o.ts d))).map
    (fun o => o.op.delta)))

/-- The naive balance reference: the sum of the signed deltas of every
operation of the tuple dated `≤ d` (spec §8, first invariant). -/
def naive_balance (ops : List WOp) (k : SGB) (d : MTime) : BalanceForGoods :=
  tupleSum ops k d

/-- `WHError` values relevant to the claims (`store/src/error.rs` is not
under src; the `Invalid` class is spec §7). -/
inductive WHError where
  | Invalid
deriving DecidableEq, Repr

/-- `OpMutation` from the store crate (spec §3): the before/after delta form
of one operation, as produced by the Document Log. -/
structure OpMutation where
  id : Nat
  date : MTime
  key : SGB
  isDependent : Bool
  before : Option InternalOperation
  after : Option InternalOperation
deriving DecidableEq, Repr

/-- Modelled from the spec: `data_update` of an ordered topology
(`store/src/ordered_topology.rs`, not under src).  A no-op mutation writes
nothing; a mutation with an `after` operation validates it first — a
zero-qty non-dependent operation is `Invalid` (spec §7, §8 scenario 6, and
the `debug_assert!(!op.op.is_zero())` in `DateTypeStoreBatchId::put`) — and
then replaces the operation stored under the mutation id; a delete removes
it.  Validation happens before any write, so the error branch leaves the
ordered topology untouched. -/
def data_update (ops : List WOp) (m : OpMutation) :
    Except WHError (List WOp) :=
  match m.before, m.after with
  | none, none => .ok ops
  | _, some a =>
    if a.qtyOf = 0 ∧ m.isDependent = false then .error .Invalid
    else .ok ((ops.filter (fun o => !decide (o.id = m.id))) ++
      [⟨m.id, m.key, m.date, a⟩])
  | some _, none => .ok (ops.filter (fun o => !decide (o.id = m.id)))

/-- Net balance delta of a mutation (`DeltaOp::delta` in
`src/animo/mod.rs`: `after - before`, `-before`, or `after`). -/
def mutDelta (m : OpMutation) : BalanceForGoods :=
  match m.before, m.after with
  | none, none => BalanceForGoods.zero
  | none, some a => a.delta
  | some b, some a => a.delta.add b.delta.neg
  | some b, none => b.delta.neg

/-- Modelled from the spec: the checkpoint maintenance for one mutation
(§4.3, §4.4 step 5), structured exactly like `checkpoint_update` but driven
by the mutation net delta. -/
def checkpoint_apply (st : WhState) (k : SGB) (d : MTime)
    (delta : BalanceForGoods) : WhState :=
  let m := MTime.nextB d
  let upd := st.ckpts.map (fun e =>
    if e.key = k ∧ MTime.le m e.time
    then ⟨e.key, e.time, e.bal.add delta⟩ else e)
  let hasGe := st.ckpts.any (fun e => decide (e.key = k ∧ MTime.le m e.time))
  let ckpts2 := if hasGe then upd else ⟨k, m, tupleSum st.ops k m⟩ :: upd
  let latest2 := if MTime.le st.latest m then m else st.latest
  ⟨st.ops, ckpts2, latest2⟩

/-- One iteration of the `record_ops` loop (`store/src/db.rs` lines 63-87):
`data_update` on the ordered topology, then — only on success —
`checkpoint_update` on the checkpoint topology.  RocksDB writes are applied
directly (no write batch), so the state after a failed `data_update` is
whatever was already written, and the error is propagated with `?`. -/
def record_mut (st : WhState) (m : OpMutation) : WhState × Option WHError :=
  match data_update st.ops m with
  | .error e => (st, some e)
  | .ok ops2 => (checkpoint_apply ⟨ops2, st.ckpts, st.latest⟩ m.key m.date
      (mutDelta m), none)

/-- `Db::record_ops`: the mutation loop, stopping at the first error. -/
def Db.record_ops (st : WhState) (ms : List OpMutation) :
    WhState × Option WHError :=
  match ms with
  | [] => (st, none)
  | m :: rest =>
    match record_mut st m with
    | (st2, none) => Db.record_ops st2 rest
    | (st2, some e) => (st2, some e)

theorem BalanceForGoods.add_zero (a : BalanceForGoods) :
    a.add BalanceForGoods.zero = a := by
  unfold BalanceForGoods.add BalanceForGoods.zero
  simp

theorem MTime.nextB_off (t : MTime) : (MTime.nextB t).off = 0 := by
  unfold MTime.nextB
  by_cases h : t.off = 0
  · simp [h]
  · simp [h]

theorem MTime.lt_of_not_le {a b : MTime} (h : ¬ le a b) : lt b a := by
  unfold le at h
  unfold lt
  omega

theorem tupleSum_append_one (ops : List WOp) (o : WOp) (k : SGB) (m : MTime) :
    tupleSum (ops ++ [o]) k m =
      if o.key = k ∧ MTime.le o.ts m
      then (tupleSum ops k m).add o.op.delta
      else tupleSum ops k m := by
  unfold tupleSum
  rw [List.filter_append]
  by_cases h : o.key = k ∧ MTime.le o.ts m
  · rw [if_pos h]
    have hone : List.filter (fun o2 => decide (o2.key = k ∧ MTime.le o2.ts m))
        [o] = [o] := by
      simp [h]
    rw [hone, List.map_append, bsum_append]
    simp [bsum, BalanceForGoods.add_zero]
  · rw [if_neg h]
    have hnone : List.filter (fun o2 => decide (o2.key = k ∧ MTime.le o2.ts m))
        [o] = [] := by
      simp [h]
    rw [hnone, List.append_nil]

/-- Checkpoint-topology invariant maintained by recording: every persisted
checkpoint is a month boundary holding the sum of the deltas of the
operations of its tuple dated at or before it. -/
def ckInv (st : WhState) : Prop :=
  ∀ e ∈ st.ckpts, e.bal = tupleSum st.ops e.key e.time ∧ e.time.off = 0

theorem record_op_inv (st : WhState) (o : WOp) (h : ckInv st) :
    ckInv (record_op st o) := by
  unfold ckInv at h ⊢
  unfold record_op checkpoint_update
  dsimp only
  have hmap : ∀ e ∈ List.map (fun e =>
      if e.key = o.key ∧ MTime.le (MTime.nextB o.ts) e.time
      then (⟨e.key, e.time, e.bal.add o.op.delta⟩ : CEntry) else e) st.ckpts,
      e.bal = tupleSum (st.ops ++ [o]) e.key e.time ∧ e.time.off = 0 := by
    intro e he
    obtain ⟨e0, he0, heq⟩ := List.mem_map.mp he
    obtain ⟨hbal, hoff⟩ := h e0 he0
    by_cases hc : e0.key = o.key ∧ MTime.le (MTime.nextB o.ts) e0.time
    · rw [if_pos hc] at heq
      subst heq
      refine ⟨?_, hoff⟩
      rw [tupleSum_append_one,
        if_pos ⟨hc.1.symm, MTime.le_trans (MTime.le_nextB o.ts) hc.2⟩, hbal]
    · rw [if_neg hc] at heq
      subst heq
      refine ⟨?_, hoff⟩
      have hneg : ¬(o.key = e0.key ∧ MTime.le o.ts e0.time) := by
        rintro ⟨hk, ht⟩
        exact hc ⟨hk.symm, (MTime.nextB_le_iff o.ts e0.time hoff).mpr ht⟩
      rw [tupleSum_append_one, if_neg hneg, hbal]
  intro e he
  by_cases hge : (st.ckpts.any fun e =>
      decide (e.key = o.key ∧ MTime.le (MTime.nextB o.ts) e.time)) = true
  · rw [if_pos hge] at he
    exact hmap e he
  · rw [if_neg hge] at he
    rcases List.mem_cons.mp he with heq | hm
    · subst heq
      exact ⟨rfl, MTime.nextB_off o.ts⟩
    · exact hmap e hm

theorem record_all_inv (ops : List WOp) : ckInv (record_all ops) := by
  unfold record_all
  have gen : ∀ (l : List WOp) (st : WhState), ckInv st →
      ckInv (l.foldl record_op st) := by
    intro l
    induction l with
    | nil => exact fun st h => h
    | cons o rest ih => exact fun st h => ih _ (record_op_inv st o h)
  apply gen
  intro e he
  exact absurd he (List.not_mem_nil e)

theorem tupleSum_split (ops : List WOp) (k : SGB) (a d : MTime)
    (had : MTime.le a d) :
    (tupleSum ops k a).add (bsum ((ops.filter (fun o =>
      decide (o.key = k ∧ MTime.lt a o.ts ∧ MTime.le o.ts d))).map
      (fun o => o.op.delta))) = tupleSum ops k d := by
  unfold tupleSum
  apply bsum_filter_split
  intro o ho
  refine ⟨?_, ?_⟩
  · rw [← Bool.decide_or, decide_eq_decide]
    by_cases hk : o.key = k
    · obtain ⟨oid2, okey2, ots2, oop2⟩ := o
      simp only at hk
      simp only [hk, eq_self_iff_true, true_and]
      obtain ⟨am, ao⟩ := a
      obtain ⟨dm, do2⟩ := d
      obtain ⟨tm2, to3⟩ := ots2
      simp only [MTime.le, MTime.lt] at had ⊢
      omega
    · simp [hk]
  · simp only [decide_eq_true_eq]
    rintro ⟨⟨_, h1⟩, ⟨_, h2, _⟩⟩
    exact MTime.not_le_of_lt h2 h1

theorem balance_on_eq_naive_of_inv (st : WhState) (k : SGB) (d : MTime)
    (hinv : ckInv st)
    (hck : (∃ e ∈ st.ckpts, e.key = k ∧ e.time = actual_date st d) ∨
      (∀ o ∈ st.ops, o.key = k → ¬ MTime.le o.ts (actual_date st d))) :
    balance_on st k d = naive_balance st.ops k d := by
  have hAd : MTime.le (actual_date st d) d := by
    unfold actual_date
    by_cases hl : MTime.lt st.latest (MTime.fom d)
    · rw [if_pos hl]
      exact MTime.le_trans (MTime.le_of_lt hl) (MTime.fom_le d)
    · rw [if_neg hl]
      exact MTime.fom_le d
  unfold balance_on naive_balance
  dsimp only
  cases hf : st.ckpts.find? (fun e =>
      decide (e.key = k ∧ e.time = actual_date st d)) with
  | some e =>
    have hmem := List.mem_of_find?_eq_some hf
    have hpred := List.find?_some hf
    rw [decide_eq_true_eq] at hpred
    obtain ⟨hbal, _⟩ := hinv e hmem
    dsimp only
    rw [hbal, hpred.1, hpred.2]
    exact tupleSum_split st.ops k (actual_date st d) d hAd
  | none =>
    dsimp only
    cases hck with
    | inl hex =>
      obtain ⟨e, hmem, hek, het⟩ := hex
      have := List.find?_eq_none.mp hf e hmem
      rw [decide_eq_true_eq] at this
      exact absurd ⟨hek, het⟩ this
    | inr hall =>
      rw [BalanceForGoods.zero_add]
      have hcongr : ∀ o ∈ st.ops,
          (decide (o.key = k ∧ MTime.lt (actual_date st d) o.ts ∧
            MTime.le o.ts d)) =
          (decide (o.key = k ∧ MTime.le o.ts d)) := by
        intro o ho
        rw [decide_eq_decide]
        constructor
        · rintro ⟨h1, _, h3⟩
          exact ⟨h1, h3⟩
        · rintro ⟨h1, h2⟩
          exact ⟨h1, MTime.lt_of_not_le (hall o ho h1), h2⟩
      rw [List.filter_congr hcongr]
      rfl

/-- Claim C1 (refuted): the balance query does not always equal the naive
reference.  Tuple k1 receives (1, 1) in month 0; a different tuple k2
receives in month 2, advancing `latest_checkpoint_date` to the month-3
boundary.  Querying k1 in month 3 scans for a k1 checkpoint at exactly the
month-3 boundary, finds none (k1 only has one at month 1), reads zero and
replays an empty interval: the query returns (0, 0) while the naive sum of
k1 deltas is (1, 1). -/
theorem balance_on_misses_old_tuple :
    balance_on (record_all
        [⟨1, ⟨1, 1, 0, ⟨0, 0⟩⟩, ⟨0, 1⟩, .Receive 1 1⟩,
         ⟨2, ⟨1, 2, 0, ⟨0, 0⟩⟩, ⟨2, 1⟩, .Receive 1 1⟩])
      ⟨1, 1, 0, ⟨0, 0⟩⟩ ⟨3, 5⟩ = ⟨0, 0⟩ ∧
    naive_balance (record_all
        [⟨1, ⟨1, 1, 0, ⟨0, 0⟩⟩, ⟨0, 1⟩, .Receive 1 1⟩,
         ⟨2, ⟨1, 2, 0, ⟨0, 0⟩⟩, ⟨2, 1⟩, .Receive 1 1⟩]).ops
      ⟨1, 1, 0, ⟨0, 0⟩⟩ ⟨3, 5⟩ = ⟨1, 1⟩ ∧
    (⟨0, 0⟩ : BalanceForGoods) ≠ ⟨1, 1⟩ := by
  refine ⟨?_, ?_, ?_⟩ <;> decide

/-- Claim C1 (amended): for every sequence of recorded operations and query
date, the balance query (nearest checkpoint plus replay) equals the naive
sum of the tuple deltas dated `≤ d`, provided the queried tuple has a
persisted checkpoint at the scan date
`min(first_day_current_month(d), latest_checkpoint_date)` — or has no
operation at all dated at or before that scan date. -/
theorem balance_on_eq_naive (ops : List WOp) (k : SGB) (d : MTime)
    (hck : (∃ e ∈ (record_all ops).ckpts,
        e.key = k ∧ e.time = actual_date (record_all ops) d) ∨
      (∀ o ∈ (record_all ops).ops, o.key = k →
        ¬ MTime.le o.ts (actual_date (record_all ops) d))) :
    balance_on (record_all ops) k d =
      naive_balance (record_all ops).ops k d :=
  balance_on_eq_naive_of_inv (record_all ops) k d (record_all_inv ops) hck

/-- Witness for claim C1 (amended): a single tuple with one receive, queried
in the month after its checkpoint was cut. -/
theorem balance_on_eq_naive_example :
    ((∃ e ∈ (record_all [⟨1, ⟨1, 1, 0, ⟨0, 0⟩⟩, ⟨0, 1⟩, .Receive 2 3⟩]).ckpts,
        e.key = (⟨1, 1, 0, ⟨0, 0⟩⟩ : SGB) ∧
        e.time = actual_date
          (record_all [⟨1, ⟨1, 1, 0, ⟨0, 0⟩⟩, ⟨0, 1⟩, .Receive 2 3⟩]) ⟨1, 5⟩) ∨
      (∀ o ∈ (record_all [⟨1, ⟨1, 1, 0, ⟨0, 0⟩⟩, ⟨0, 1⟩, .Receive 2 3⟩]).ops,
        o.key = (⟨1, 1, 0, ⟨0, 0⟩⟩ : SGB) →
        ¬ MTime.le o.ts (actual_date
          (record_all [⟨1, ⟨1, 1, 0, ⟨0, 0⟩⟩, ⟨0, 1⟩, .Receive 2 3⟩]) ⟨1, 5⟩))) ∧
    balance_on (record_all [⟨1, ⟨1, 1, 0, ⟨0, 0⟩⟩, ⟨0, 1⟩, .Receive 2 3⟩])
        ⟨1, 1, 0, ⟨0, 0⟩⟩ ⟨1, 5⟩ =
      naive_balance (record_all
        [⟨1, ⟨1, 1, 0, ⟨0, 0⟩⟩, ⟨0, 1⟩, .Receive 2 3⟩]).ops
        ⟨1, 1, 0, ⟨0, 0⟩⟩ ⟨1, 5⟩ :=
  ⟨by decide,
   balance_on_eq_naive [⟨1, ⟨1, 1, 0, ⟨0, 0⟩⟩, ⟨0, 1⟩, .Receive 2 3⟩]
     ⟨1, 1, 0, ⟨0, 0⟩⟩ ⟨1, 5⟩ (by decide)⟩

/-- Claim C7: a mutation whose `after` operation has zero qty and is not
dependent makes `record_ops` return the `Invalid` error and write nothing:
the returned state is exactly the input state. -/
theorem record_ops_zero_qty_invalid (st : WhState) (m : OpMutation)
    (a : InternalOperation) (ha : m.after = some a)
    (hq : a.qtyOf = 0) (hd : m.isDependent = false) :
    Db.record_ops st [m] = (st, some WHError.Invalid) := by
  have hdu : data_update st.ops m = .error .Invalid := by
    unfold data_update
    rw [ha]
    cases hb : m.before <;> simp [hq, hd]
  unfold Db.record_ops record_mut
  rw [hdu]

/-- Witness for claim C7: recording `after = Receive(0, 0)` from the empty
state returns `Invalid` and leaves the state untouched. -/
theorem record_ops_zero_qty_invalid_example :
    (⟨1, ⟨0, 1⟩, ⟨1, 1, 0, ⟨0, 0⟩⟩, false, none,
        some (.Receive 0 0)⟩ : OpMutation).after = some (.Receive 0 0) ∧
    InternalOperation.qtyOf (.Receive 0 0) = 0 ∧
    Db.record_ops ⟨[], [], ⟨0, 0⟩⟩
        [⟨1, ⟨0, 1⟩, ⟨1, 1, 0, ⟨0, 0⟩⟩, false, none, some (.Receive 0 0)⟩] =
      (⟨[], [], ⟨0, 0⟩⟩, some WHError.Invalid) :=
  ⟨rfl, rfl,
   record_ops_zero_qty_invalid ⟨[], [], ⟨0, 0⟩⟩
     ⟨1, ⟨0, 1⟩, ⟨1, 1, 0, ⟨0, 0⟩⟩, false, none, some (.Receive 0 0)⟩
     (.Receive 0 0) rfl rfl rfl⟩

/-- Claim C2 (refuted): `record_ops` is not atomic.  Recording a valid
receive followed by a zero-qty mutation returns the `Invalid` error, yet the
persistent state differs from the pre-call state: the first mutation's
ordered-topology and checkpoint writes remain. -/
theorem record_ops_not_atomic :
    (Db.record_ops ⟨[], [], ⟨0, 0⟩⟩
        [⟨1, ⟨0, 1⟩, ⟨1, 1, 0, ⟨0, 0⟩⟩, false, none, some (.Receive 1 1)⟩,
         ⟨2, ⟨0, 2⟩, ⟨1, 1, 0, ⟨0, 0⟩⟩, false, none,
           some (.Receive 0 0)⟩]).2 = some WHError.Invalid ∧
    (Db.record_ops ⟨[], [], ⟨0, 0⟩⟩
        [⟨1, ⟨0, 1⟩, ⟨1, 1, 0, ⟨0, 0⟩⟩, false, none, some (.Receive 1 1)⟩,
         ⟨2, ⟨0, 2⟩, ⟨1, 1, 0, ⟨0, 0⟩⟩, false, none,
           some (.Receive 0 0)⟩]).1 ≠ ⟨[], [], ⟨0, 0⟩⟩ := by
  refine ⟨?_, ?_⟩ <;> decide

theorem record_mut_error_state (s : WhState) (m : OpMutation) (e : WHError)
    (h : (record_mut s m).2 = some e) : (record_mut s m).1 = s := by
  unfold record_mut at h ⊢
  revert h
  cases hdu : data_update s.ops m
  · intro _
    rfl
  · intro h
    exact Option.noConfusion h

theorem record_ops_step_ok (s : WhState) (p : OpMutation)
    (l : List OpMutation) (s2 : WhState) (h : record_mut s p = (s2, none)) :
    Db.record_ops s (p :: l) = Db.record_ops s2 l := by
  conv_lhs => unfold Db.record_ops
  rw [h]

theorem record_ops_step_err (s : WhState) (p : OpMutation)
    (l : List OpMutation) (s2 : WhState) (e : WHError)
    (h : record_mut s p = (s2, some e)) :
    Db.record_ops s (p :: l) = (s2, some e) := by
  conv_lhs => unfold Db.record_ops
  rw [h]

/-- Claim C2 (amended): `record_ops` applies its writes mutation by mutation
directly to the KV store (there is no write batch); when it returns an error
raised by mutation `m` after a successful prefix, the persistent state is
the state reached after that prefix — the failing mutation itself wrote
nothing, but the prefix writes persist instead of being rolled back to the
pre-call state. -/
theorem record_ops_error_keeps_done_writes (st : WhState)
    (pre : List OpMutation) (m : OpMutation) (rest : List OpMutation)
    (e : WHError)
    (hpre : (Db.record_ops st pre).2 = none)
    (herr : (record_mut (Db.record_ops st pre).1 m).2 = some e) :
    Db.record_ops st (pre ++ m :: rest) = ((Db.record_ops st pre).1, some e) := by
  induction pre generalizing st with
  | nil =>
    simp only [List.nil_append]
    have h1 : Db.record_ops st [] = (st, none) := rfl
    rw [h1] at herr ⊢
    dsimp only at herr ⊢
    rcases hrm : record_mut st m with ⟨st2, oe⟩
    rw [hrm] at herr
    dsimp only at herr
    subst herr
    rw [record_ops_step_err st m rest st2 e hrm]
    have := record_mut_error_state st m e (by rw [hrm])
    rw [hrm] at this
    dsimp only at this
    rw [this]
  | cons p pre2 ih =>
    rcases hrm : record_mut st p with ⟨st2, oe⟩
    cases oe with
    | none =>
      have hred : Db.record_ops st (p :: pre2) = Db.record_ops st2 pre2 :=
        record_ops_step_ok st p pre2 st2 hrm
      rw [hred] at hpre herr
      have hred2 : Db.record_ops st ((p :: pre2) ++ m :: rest) =
          Db.record_ops st2 (pre2 ++ m :: rest) := by
        rw [List.cons_append]
        exact record_ops_step_ok st p (pre2 ++ m :: rest) st2 hrm
      rw [hred2, hred]
      exact ih st2 hpre herr
    | some e2 =>
      exfalso
      have hred : Db.record_ops st (p :: pre2) = (st2, some e2) :=
        record_ops_step_err st p pre2 st2 e2 hrm
      rw [hred] at hpre
      simp at hpre

/-- Witness for claim C2 (amended): a valid receive followed by a zero-qty
mutation, from the empty state. -/
theorem record_ops_error_keeps_done_writes_example :
    (Db.record_ops ⟨[], [], ⟨0, 0⟩⟩
        [⟨1, ⟨0, 1⟩, ⟨1, 1, 0, ⟨0, 0⟩⟩, false, none,
          some (.Receive 1 1)⟩]).2 = none ∧
    Db.record_ops ⟨[], [], ⟨0, 0⟩⟩
        ([⟨1, ⟨0, 1⟩, ⟨1, 1, 0, ⟨0, 0⟩⟩, false, none, some (.Receive 1 1)⟩] ++
          ⟨2, ⟨0, 2⟩, ⟨1, 1, 0, ⟨0, 0⟩⟩, false, none, some (.Receive 0 0)⟩ ::
            []) =
      ((Db.record_ops ⟨[], [], ⟨0, 0⟩⟩
          [⟨1, ⟨0, 1⟩, ⟨1, 1, 0, ⟨0, 0⟩⟩, false, none,
            some (.Receive 1 1)⟩]).1, some WHError.Invalid) :=
  ⟨by decide,
   record_ops_error_keeps_done_writes ⟨[], [], ⟨0, 0⟩⟩
     [⟨1, ⟨0, 1⟩, ⟨1, 1, 0, ⟨0, 0⟩⟩, false, none, some (.Receive 1 1)⟩]
     ⟨2, ⟨0, 2⟩, ⟨1, 1, 0, ⟨0, 0⟩⟩, false, none, some (.Receive 0 0)⟩
     [] WHError.Invalid (by decide) (by decide)⟩

/-- Witness for claim C5 (amended): a state holding exactly one checkpoint
for (store 5, goods 6) at the month-1 boundary, queried inside month 1. -/
theorem get_checkpoints_for_one_goods_exact_date_example :
    (∀ e ∈ (⟨[(⟨⟨1, 0⟩, 5, 6, 0, 7⟩, ⟨5, 5⟩)], ⟨1, 0⟩⟩ : CkptState).entries,
      e.1.batchTs ≤ U64M ∧ e.1.batchId ≤ U128M) ∧
    CheckDateStoreBatch.get_checkpoints_for_one_goods
        ⟨[(⟨⟨1, 0⟩, 5, 6, 0, 7⟩, ⟨5, 5⟩)], ⟨1, 0⟩⟩ 5 6 ⟨1, 4⟩ =
      ((⟨[(⟨⟨1, 0⟩, 5, 6, 0, 7⟩, ⟨5, 5⟩)], ⟨1, 0⟩⟩ : CkptState).entries.filter
        (fun e => decide (e.1.ts =
            (if MTime.lt (⟨[(⟨⟨1, 0⟩, 5, 6, 0, 7⟩, ⟨5, 5⟩)],
                  ⟨1, 0⟩⟩ : CkptState).latest (MTime.fom ⟨1, 4⟩)
             then (⟨[(⟨⟨1, 0⟩, 5, 6, 0, 7⟩, ⟨5, 5⟩)], ⟨1, 0⟩⟩ : CkptState).latest
             else MTime.fom ⟨1, 4⟩) ∧
          e.1.store = 5 ∧ e.1.goods = 6 ∧
          ¬(e.1.batchTs = U64M ∧ e.1.batchId = U128M)))).map
        (fun e => ⟨e.1.ts, e.1.store, e.1.goods, e.1.batchTs, e.1.batchId, e.2⟩) :=
  ⟨by decide,
   get_checkpoints_for_one_goods_exact_date
     ⟨[(⟨⟨1, 0⟩, 5, 6, 0, 7⟩, ⟨5, 5⟩)], ⟨1, 0⟩⟩ 5 6 ⟨1, 4⟩ (by decide)⟩

end Nae
